import Mathlib

/-!
Shallow embedding of the factor-analysis library (soaringWhite/lib).

Numeric values are modelled as `ℚ`; a pandas NaN ("missing") cell is
`Option.none`.  Operations that can raise a Python exception return
`Option`, with `none` standing for the raised exception.

Sources embedded here:
* `factor_analysis.py` — `FactorAnalysis.daily_grouping` (with its inner
  `safe_qcut`), `calculate_daily_group_returns`,
  `calculate_cumulative_returns`;
* `factor_calculator.py` — `adjust_price_data`, `calculate_returns`,
  the module-level `calculate_factors` and
  `FactorCalculator.calculate_factors`.
-/

/-- One row of the panel handed to `FactorAnalysis` (`factors_df`): a
(date, code) observation carrying the factor value under study and the
value of the returns column.  `none` models a NaN cell. -/
structure FRow where
  date : Nat
  code : Nat
  factor : Option ℚ
  ret : Option ℚ
deriving DecidableEq

/-- One row of the raw input panel handed to `FactorCalculator`:
numeric OHLCV fields plus the adjustment factor.  (`data_loader.py`
merely reads such rows from SQLite.) -/
structure PanelRow where
  code : Nat
  date : Nat
  «open» : ℚ
  high : ℚ
  low : ℚ
  close : ℚ
  volume : ℚ
  adj_factor : ℚ
deriving DecidableEq

/-- `np.linspace a b (q+1)`: the `q + 1` evenly spaced points from `a`
to `b` (exact in `ℚ`; numpy pins both endpoints, and with exact
arithmetic `a + q·(b-a)/q = b` anyway). -/
def linspaceQ (a b : ℚ) (q : Nat) : List ℚ :=
  (List.range (q + 1)).map (fun i => a + (b - a) * (i : ℚ) / (q : ℚ))

/-- Sorted distinct non-missing values of a pandas Series: the
non-NaN part of `np.sort(x.unique())`, whose length is `x.nunique()`
(pandas `nunique` ignores NaN). -/
def sortedDistinct (x : List (Option ℚ)) : List ℚ :=
  ((x.filterMap id).insertionSort (· ≤ ·)).dedup

/-- Interval lookup for `pd.cut` against increasing edges: starting
from lower edge `lo` and remaining edges `rest`, value `v` gets the
1-based bin index `i` of the first right-closed interval
`(edges[i-1], edges[i]]` containing it, and NaN (`none`) otherwise. -/
def cutSearch (lo : ℚ) (rest : List ℚ) (i : Nat) (v : ℚ) : Option Nat :=
  match rest with
  | [] => none
  | hi :: rest2 => if lo < v ∧ v ≤ hi then some i else cutSearch hi rest2 (i + 1) v

/-- `pd.cut` of a single value against explicit increasing bin edges,
with integer labels `1, …, len edges - 1`.  When `il = true` the lowest
edge belongs to the first bin (`include_lowest=True`, as `pd.qcut`
uses); with `il = false` (the `pd.cut` default used by `safe_qcut`) a
value equal to the lowest edge falls outside every bin and gets NaN. -/
def pdCutVal (edges : List ℚ) (il : Bool) (v : ℚ) : Option Nat :=
  match edges with
  | [] => none
  | e0 :: rest =>
    if il = true ∧ v = e0 ∧ rest ≠ [] then some 1 else cutSearch e0 rest 1 v

/-- Linear-interpolation quantile (the pandas/numpy default) of an
ascending list `v` at probability `p`: with `h = p·(n-1)`,
`k = ⌊h⌋` and `f = h - k`, the quantile is `v[k] + f·(v[k+1] - v[k])`. -/
def quantileLin (v : List ℚ) (p : ℚ) : ℚ :=
  let h : ℚ := p * ((v.length : ℚ) - 1)
  let k : Nat := h.floor.toNat
  let f : ℚ := h - (k : ℚ)
  let a : ℚ := v.getD k 0
  let b : ℚ := v.getD (k + 1) a
  a + f * (b - a)

/-- The `q + 1` quantile bin edges `pd.qcut x q` computes: linear
quantiles of the non-missing values at `0, 1/q, …, 1`. -/
def qcutEdges (vals : List ℚ) (q : Nat) : List ℚ :=
  (List.range (q + 1)).map
    (fun j => quantileLin (vals.insertionSort (· ≤ ·)) ((j : ℚ) / (q : ℚ)))

/-- `pd.qcut(x, q, labels=range(1, q + 1), duplicates='drop')`.
`pd.qcut` bins with `include_lowest=True`, so every non-missing value
lands in a bin labelled 1 … q; NaN values stay NaN.  When the computed
quantile edges contain duplicates, `duplicates='drop'` removes them and
pandas then raises `ValueError` because the explicit label list of
length `q` no longer matches the reduced number of bins; `none` models
that exception. -/
def pdQcut (x : List (Option ℚ)) (q : Nat) : Option (List (Option Nat)) :=
  let edges := qcutEdges (x.filterMap id) q
  if edges.dedup.length = edges.length then
    some (x.map (fun o => o.bind (pdCutVal edges true)))
  else none

/-- `safe_qcut` from `FactorAnalysis.daily_grouping`
(factor_analysis.py, lines 30–42), applied to one date's cross-section
`x` of factor values:

* if `x.nunique() < q` (distinct non-missing values fewer than `q`):
  - if `len(np.sort(x.unique())) == 1` — which, since `x.unique()`
    keeps NaN, happens exactly when the cross-section has one distinct
    value and no NaN, or consists solely of NaN — every row (missing
    or not) gets group 1 via `pd.Series(1, index=x.index)`;
  - otherwise, when the cross-section contains a NaN, `x.unique()`
    contains NaN, so `unique_values.min()`/`.max()` are NaN and
    `np.linspace(NaN, NaN, q+1)` is all-NaN; `np.unique` folds the NaN
    bin edges into a single entry (numpy ≥ 1.21), so `len(bins) - 1 =
    0 < q` and again every row gets group 1;
  - otherwise the edges are `np.unique(np.linspace(min, max, q + 1))`
    and, if at least `q` bins remain, rows are cut equal-width with
    labels `range(1, len(bins))` (`pd.cut` default `right=True`,
    `include_lowest=False`), else every row gets group 1;
* else `pd.qcut(x, q, labels=range(1, q + 1), duplicates='drop')`.

`none` models an exception escaping `safe_qcut`. -/
def safe_qcut (x : List (Option ℚ)) (q : Nat) : Option (List (Option Nat)) :=
  let distinct := sortedDistinct x
  let hasNaN := x.any (fun o => o.isNone)
  if distinct.length < q then
    if distinct.length + (if hasNaN then 1 else 0) = 1 then
      some (x.map (fun _ => some 1))
    else if hasNaN then
      some (x.map (fun _ => some 1))
    else
      let bins := (linspaceQ (distinct.headD 0) (distinct.getLastD 0) q).dedup
      if bins.length - 1 < q then some (x.map (fun _ => some 1))
      else some (x.map (fun o => o.bind (pdCutVal bins false)))
  else pdQcut x q

/-- C1: the grouping invariant fails on the code.  On the date
cross-section with factor values `[1, 2]` and `Q = 5`, `safe_qcut`
takes the equal-width fallback (2 distinct values < 5), builds the six
edges `linspace 1 2` and cuts with right-closed intervals excluding
the lowest edge, so the row holding the minimum value 1 receives no
group at all while the value-2 row gets group 5 — contradicting the
claim that every row with a non-missing factor value is assigned
exactly one group label. -/
theorem safe_qcut_drops_min_row_in_fallback :
    safe_qcut [some 1, some 2] 5 = some [none, some 5] := by
  with_unfolding_all decide

/-- C2: on the five distinct ascending values `[1, 2, 3, 4, 5]` with
`Q = 5`, `pd.qcut` yields exactly the labels `[1, 2, 3, 4, 5]` in row
order, as the claim's example states; but the claim's universal part
fails: on the cross-section `[1,1,1,1,1,1,2,3,4,5]` (10 rows, 5
distinct values ≥ Q) the quantile edges `[1, 1, 1, 7/5, 16/5, 5]`
contain duplicates, `duplicates='drop'` reduces them to 4 edges, and
pandas raises `ValueError` because the label list of length 5 no
longer matches the 3 remaining bins — the grouper errors instead of
labelling bins 1 … Q. -/
theorem safe_qcut_quantile_example_and_duplicate_edges_failure :
    safe_qcut [some 1, some 2, some 3, some 4, some 5] 5 =
      some [some 1, some 2, some 3, some 4, some 5] ∧
    safe_qcut [some 1, some 1, some 1, some 1, some 1, some 1,
      some 2, some 3, some 4, some 5] 5 = none := by
  with_unfolding_all decide

/-- C3, counterexample: the claim as stated also covers degenerate
cross-sections containing missing values, but there the code never
builds usable evenly spaced edges.  On the cross-section
`[1, 2, NaN]` with `Q = 5` (2 distinct non-missing values < 5), the
claim prescribes equal-width binning by the deduplicated edges
`linspace 1 2`, under which the value-2 row would get the top bin
(second conjunct: `pdCutVal` of 2 against those edges is bin 5);
the code instead degrades through the NaN-poisoned `linspace` to the
all-rows-group-1 fallback, giving the value-2 row (and even the
missing row) group 1. -/
theorem safe_qcut_degenerate_missing_values_not_equal_width :
    safe_qcut [some 1, some 2, none] 5 = some [some 1, some 1, some 1] ∧
    pdCutVal ((linspaceQ 1 2 5).dedup) false 2 = some 5 := by
  with_unfolding_all decide

/-- C3 (amended: restricted to cross-sections without missing values):
for a date cross-section with no missing factor values and fewer than
`Q` distinct values, the code assigns every row group 1 when there is
exactly one distinct value; with at least two distinct values it builds
the `Q + 1` evenly spaced deduplicated edges between the minimum and
maximum, gives every row group 1 when fewer than `Q` bins remain, and
otherwise bins the rows equal-width by those edges (via `pd.cut` with
its default right-closed intervals). -/
theorem safe_qcut_degenerate_no_missing_spec (x : List (Option ℚ)) (q : Nat)
    (hall : ∀ o ∈ x, o.isSome) (hlt : (sortedDistinct x).length < q) :
    ((sortedDistinct x).length = 1 → safe_qcut x q = some (x.map (fun _ => some 1))) ∧
    (2 ≤ (sortedDistinct x).length →
      safe_qcut x q =
        (if ((linspaceQ ((sortedDistinct x).headD 0)
            ((sortedDistinct x).getLastD 0) q).dedup).length - 1 < q then
          some (x.map (fun _ => some 1))
        else
          some (x.map (fun o =>
            o.bind (pdCutVal ((linspaceQ ((sortedDistinct x).headD 0)
              ((sortedDistinct x).getLastD 0) q).dedup) false))))) := by
  have hnan : x.any (fun o => o.isNone) = false := by
    rw [List.any_eq_false]
    intro o ho
    have h := hall o ho
    cases o with
    | none => simp at h
    | some v => simp
  constructor
  · intro h1
    simp only [safe_qcut, hnan, Bool.false_eq_true, if_false, Nat.add_zero,
      h1, if_pos rfl]
    rw [if_pos (h1 ▸ hlt)]
    simp
  · intro h2
    have h1 : (sortedDistinct x).length ≠ 1 := by omega
    simp only [safe_qcut, hnan, if_pos hlt, Bool.false_eq_true, if_false,
      Nat.add_zero]
    rw [if_neg h1]

/-- Witness for the amended C3, exercising both degenerate branches:
the all-equal cross-section `[4, 4]` collapses to a single group, and
`[3, 7]` with `Q = 5` goes through equal-width binning (where the
minimum row is left ungrouped by the right-closed intervals). -/
theorem safe_qcut_degenerate_no_missing_spec_witness :
    safe_qcut [some 4, some 4] 5 = some [some 1, some 1] ∧
    safe_qcut [some 3, some 7] 5 = some [none, some 5] := by
  constructor
  · have h := (safe_qcut_degenerate_no_missing_spec [some (4 : ℚ), some 4] 5
      (by with_unfolding_all decide) (by with_unfolding_all decide)).1
      (by with_unfolding_all decide)
    rw [h]
    with_unfolding_all decide
  · have h := (safe_qcut_degenerate_no_missing_spec [some (3 : ℚ), some 7] 5
      (by with_unfolding_all decide) (by with_unfolding_all decide)).2
      (by with_unfolding_all decide)
    rw [h]
    with_unfolding_all decide

/-- `calculate_returns` (factor_calculator.py, lines 26–42): the
forward `H`-day return per stock via the vectorized
`(close.shift(-H) - close) / close`; `shift(-H)` leaves the final `H`
rows NaN, so the final `H` returns are NaN. -/
def calculate_returns (close : List ℚ) (H : Nat) : List (Option ℚ) :=
  (List.range close.length).map (fun t =>
    if t + H < close.length then
      some ((close.getD (t + H) 0 - close.getD t 0) / close.getD t 0)
    else none)

/-- C4: `calculate_returns` keeps the series length; each row `t` with
`t + H` in range carries `(close[t+H] - close[t]) / close[t]`; the
final `H` rows carry the explicit missing marker, never a silent zero;
and on the two-row series `[100, 110]` with `H = 1` the first row is
`1/10` and the second is undefined. -/
theorem calculate_returns_spec (close : List ℚ) (H : Nat) (_hH : 1 ≤ H) :
    (calculate_returns close H).length = close.length ∧
    (∀ t, t + H < close.length →
      (calculate_returns close H).getD t none =
        some ((close.getD (t + H) 0 - close.getD t 0) / close.getD t 0)) ∧
    (∀ t, t < close.length → close.length ≤ t + H →
      (calculate_returns close H).getD t none = none) ∧
    calculate_returns [100, 110] 1 = [some (1/10), none] := by
  refine ⟨by simp [calculate_returns], ?_, ?_, by with_unfolding_all decide⟩
  · intro t ht
    have htn : t < close.length := lt_of_le_of_lt (Nat.le_add_right t H) ht
    simp [calculate_returns, List.getD_eq_getElem?_getD, htn, ht]
  · intro t htn hge
    have hnot : ¬ t + H < close.length := not_lt.mpr hge
    simp [calculate_returns, List.getD_eq_getElem?_getD, htn, hnot]

/-- Witness for C4 at `H = 1`, closes `[100, 110]`. -/
theorem calculate_returns_spec_witness :
    calculate_returns [100, 110] 1 = [some (1/10), none] :=
  (calculate_returns_spec [100, 110] 1 (by decide)).2.2.2

/-- Running product of a list, as `Series.cumprod` produces it:
element `t` is the product of the first `t + 1` values. -/
def cumprod : List ℚ → List ℚ
  | [] => []
  | a :: l => a :: (cumprod l).map (fun b => a * b)

/-- `FactorAnalysis.calculate_cumulative_returns`
(factor_analysis.py, lines 71–88) restricted to one group's
date-ordered column of daily returns: `cumprod` over the raw values
(the column holds the returns themselves, not `1 + r`), then the whole
series is divided by its first value — which is the first raw return —
unless that first value is exactly 0, in which case the series is left
as is. -/
def calculate_cumulative_returns (l : List ℚ) : List ℚ :=
  let c := cumprod l
  match c with
  | [] => []
  | h :: _ => if h = 0 then c else c.map (fun v => v / h)

theorem cumprod_length (l : List ℚ) : (cumprod l).length = l.length := by
  induction l with
  | nil => rfl
  | cons a l ih => simp [cumprod, ih]

/-- C5: for a nonempty group return series, the cumulative net value is
the running product of the raw daily returns divided elementwise by the
first raw value (so the series begins at 1) when that first value is
nonzero, and is left unnormalized when the first value is exactly 0;
in particular `[0, 1/10, -1/20]` yields `[0, 0, 0]`. -/
theorem calculate_cumulative_returns_spec (l : List ℚ) (hne : l ≠ []) :
    (l.headD 0 = 0 → calculate_cumulative_returns l = cumprod l) ∧
    (l.headD 0 ≠ 0 →
      (calculate_cumulative_returns l).headD 0 = 1 ∧
      ∀ t, t < l.length →
        (calculate_cumulative_returns l).getD t 0 =
          (cumprod l).getD t 0 / l.headD 0) ∧
    calculate_cumulative_returns [0, 1/10, -(1/20)] = [0, 0, 0] := by
  cases l with
  | nil => exact absurd rfl hne
  | cons a l' =>
    refine ⟨?_, ?_, by with_unfolding_all decide⟩
    · intro h0
      simp only [List.headD_cons] at h0
      simp [calculate_cumulative_returns, cumprod, h0]
    · intro ha
      simp only [List.headD_cons] at ha
      have hmap : ∀ (m : List ℚ) (t : Nat), t < m.length →
          (m.map (fun v => v / a)).getD t 0 = m.getD t 0 / a := by
        intro m t ht
        simp [List.getD_eq_getElem?_getD, List.getElem?_eq_getElem ht]
      constructor
      · simp [calculate_cumulative_returns, cumprod, ha, div_self]
      · intro t ht
        have hlen : t < (cumprod (a :: l')).length := by
          rw [cumprod_length]; simpa using ht
        simp only [List.headD_cons]
        calc (calculate_cumulative_returns (a :: l')).getD t 0
            = ((cumprod (a :: l')).map (fun v => v / a)).getD t 0 := by
              simp [calculate_cumulative_returns, cumprod, ha]
          _ = (cumprod (a :: l')).getD t 0 / a := hmap _ t hlen

/-- Witness for C5: on the series `[2, 3]` (first value nonzero) the
normalized net value series begins at 1. -/
theorem calculate_cumulative_returns_spec_witness :
    (calculate_cumulative_returns [2, 3]).headD 0 = 1 :=
  ((calculate_cumulative_returns_spec [2, 3] (by decide)).2.1
    (by decide)).1

/-- `FactorAnalysis.daily_grouping` (factor_analysis.py, lines 44):
`factors_df.groupby('date')[factor_col].transform(safe_qcut)`.  Row `i`
receives the label `safe_qcut` computed for its date's cross-section
(the same-date rows in panel order) at row `i`'s position within that
cross-section; `none` at the outer level models an exception raised by
`safe_qcut` on any date group. -/
def assignGroups (rows : List FRow) (q : Nat) : Option (List (Option Nat)) :=
  (List.range rows.length).mapM (fun i =>
    let r := rows.getD i ⟨0, 0, none, none⟩
    let dateRows := rows.filter (fun s => s.date == r.date)
    let pos := ((rows.take i).filter (fun s => s.date == r.date)).length
    (safe_qcut (dateRows.map (fun s => s.factor)) q).map
      (fun gs => gs.getD pos none))

/-- Ordering of the (date, group) keys: pandas `groupby` sorts its keys,
here lexicographically by date then group. -/
def pairLe (a b : Nat × Nat) : Prop := a.1 < b.1 ∨ (a.1 = b.1 ∧ a.2 ≤ b.2)

instance : DecidableRel pairLe := fun a b => by
  unfold pairLe
  infer_instance

/-- The (date, group) keys `groupby(['date', 'group'])` produces when
the group column is NOT categorical (at least one date went through a
`pd.Series(1, index=...)` fallback, so the concatenated transform
result is a plain integer/object column): one key per pair observed on
at least one row, sorted; rows whose group is NaN are dropped (pandas
`groupby` default `dropna=True`). -/
def observedPairs (rows : List FRow) (gs : List (Option Nat)) : List (Nat × Nat) :=
  (((rows.zip gs).filterMap
    (fun rg => rg.2.map (fun g => (rg.1.date, g)))).dedup).insertionSort pairLe

/-- The defined (non-NaN) returns among the rows of the (d, g) group. -/
def groupRets (rows : List FRow) (gs : List (Option Nat)) (d g : Nat) : List ℚ :=
  ((rows.zip gs).filter
    (fun rg => rg.1.date == d && rg.2 == some g)).filterMap (fun rg => rg.1.ret)

/-- pandas `Series.mean` with its default `skipna=True`, applied to the
defined values of a group: NaN (`none`) when no value is defined. -/
def pdMean (l : List ℚ) : Option ℚ :=
  if l.isEmpty then none else some (l.sum / (l.length : ℚ))

/-- Whether `safe_qcut` returns a categorical result on cross-section
`x`.  The `pd.qcut` branch and the equal-width `pd.cut` branch both
return ordered categoricals whose categories are exactly the supplied
labels 1 … q (for `pd.cut`, `len(bins) = q + 1` whenever that branch
is reached, since with exact arithmetic `np.linspace` of two distinct
endpoints has no duplicates); the three `pd.Series(1, index=x.index)`
fallbacks return a plain int64 Series.  The branch structure mirrors
`safe_qcut`. -/
def qcutIsCategorical (x : List (Option ℚ)) (q : Nat) : Bool :=
  let distinct := sortedDistinct x
  let hasNaN := x.any (fun o => o.isNone)
  if distinct.length < q then
    if distinct.length + (if hasNaN then 1 else 0) = 1 then false
    else if hasNaN then false
    else
      let bins := (linspaceQ (distinct.headD 0) (distinct.getLastD 0) q).dedup
      if bins.length - 1 < q then false else true
  else true

/-- Whether the `group` column assembled by
`groupby('date')[factor_col].transform(safe_qcut)` is categorical:
`transform` concatenates the per-date results without a dtype cast, and
concatenation preserves the categorical dtype exactly when every date's
result is categorical (they then all share the same ordered categories
1 … 5); one integer-fallback date degrades the column to a plain
integer/object dtype. -/
def groupColIsCategorical (rows : List FRow) : Bool :=
  (((rows.map (fun r => r.date)).insertionSort (· ≤ ·)).dedup).all
    (fun d => qcutIsCategorical
      ((rows.filter (fun s => s.date == d)).map (fun s => s.factor)) 5)

/-- The (date, group) keys of
`groupby(['date', 'group'], observed=False)[returns_col].mean()`.
When the group column is categorical, `observed=False` expands the
result to the cartesian product of the observed dates with ALL the
categories 1 … 5, zero-member combinations included (every date keeps
at least one non-NaN-group row in this regime, so every date appears);
otherwise `observed=False` has no effect and only the observed pairs
appear.  Keys are sorted by date then group either way. -/
def aggKeys (rows : List FRow) (gs : List (Option Nat)) : List (Nat × Nat) :=
  if groupColIsCategorical rows then
    (((rows.map (fun r => r.date)).insertionSort (· ≤ ·)).dedup).flatMap
      (fun d => (List.range 5).map (fun g => (d, g + 1)))
  else observedPairs rows gs

/-- `FactorAnalysis.calculate_daily_group_returns`
(factor_analysis.py, lines 47–69) after the returns column has been
resolved: group the panel by date with `daily_grouping` (called with
its default `q = 5`), then take
`groupby(['date', 'group'], observed=False)[returns_col].mean()` — one
record (date, group, mean) per aggregation key (see `aggKeys`: all
date × category combinations when the group column is categorical,
observed pairs otherwise), the mean being NaN whenever no member of
the key has a defined return — in particular for zero-member keys. -/
def calculate_daily_group_returns (rows : List FRow) :
    Option (List (Nat × Nat × Option ℚ)) :=
  (assignGroups rows 5).map (fun gs =>
    (aggKeys rows gs).map
      (fun p => (p.1, p.2, pdMean (groupRets rows gs p.1 p.2))))

/-- C6, counterexample: a (date, group) whose members all lack a
defined forward return still yields a record (with a missing mean).
Five stocks on a single date, factor values 1 … 5, every forward
return NaN (as on the final holding horizon of a sample): the date
goes through `pd.qcut`, the group column is categorical and
`observed=False` emits one record per category — five records, all
with missing mean — whereas the claim says a record is produced only
for pairs with at least one member with a defined forward return,
which here would be no records at all. -/
theorem daily_group_returns_record_without_defined_returns :
    ([⟨0, 1, some 1, none⟩, ⟨0, 2, some 2, none⟩, ⟨0, 3, some 3, none⟩,
      ⟨0, 4, some 4, none⟩, ⟨0, 5, some 5, none⟩] : List FRow).all
        (fun r => r.ret == none) = true ∧
    calculate_daily_group_returns
      [⟨0, 1, some 1, none⟩, ⟨0, 2, some 2, none⟩, ⟨0, 3, some 3, none⟩,
       ⟨0, 4, some 4, none⟩, ⟨0, 5, some 5, none⟩] =
      some [(0, 1, none), (0, 2, none), (0, 3, none), (0, 4, none),
        (0, 5, none)] := by
  with_unfolding_all decide

/-- C6 (amended): when grouping succeeds, each emitted record's mean is
the mean of the defined forward returns of that (date, group)'s member
rows, missing when no member has a defined return (rather than the
record being omitted, as the original claim said); and the set of
emitted keys depends on the group column's dtype: when every date is
binned by `pd.qcut`/`pd.cut` (categorical group column), a record
appears for every (observed date, category 1 … 5) combination —
zero-member pairs included — while when some date took the
single-group integer fallback, exactly the observed (date, group)
pairs appear. -/
theorem daily_group_returns_records_spec (rows : List FRow)
    (gs : List (Option Nat)) (recs : List (Nat × Nat × Option ℚ))
    (h1 : assignGroups rows 5 = some gs)
    (h2 : calculate_daily_group_returns rows = some recs) :
    (∀ d g m, (d, g, m) ∈ recs → m = pdMean (groupRets rows gs d g)) ∧
    (groupColIsCategorical rows = true →
      ∀ d g, ((d, g) ∈ recs.map (fun r => (r.1, r.2.1)) ↔
        (∃ r ∈ rows, r.date = d) ∧ 1 ≤ g ∧ g ≤ 5)) ∧
    (groupColIsCategorical rows = false →
      ∀ d g, ((d, g) ∈ recs.map (fun r => (r.1, r.2.1)) ↔
        ∃ rg ∈ rows.zip gs, rg.1.date = d ∧ rg.2 = some g)) := by
  have hrecs : recs = (aggKeys rows gs).map
      (fun p => (p.1, p.2, pdMean (groupRets rows gs p.1 p.2))) := by
    rw [calculate_daily_group_returns, h1] at h2
    simpa using h2.symm
  have hproj : recs.map (fun r => (r.1, r.2.1)) = aggKeys rows gs := by
    rw [hrecs, List.map_map]
    have hco : ((fun r : Nat × Nat × Option ℚ => (r.1, r.2.1)) ∘
        (fun p : Nat × Nat => (p.1, p.2, pdMean (groupRets rows gs p.1 p.2)))) = id := by
      funext p
      rfl
    rw [hco, List.map_id]
  refine ⟨?_, ?_, ?_⟩
  · intro d g m hmem
    rw [hrecs] at hmem
    rcases List.mem_map.mp hmem with ⟨p, _hp, he⟩
    obtain ⟨hd, hg, hm2⟩ :
        p.1 = d ∧ p.2 = g ∧ pdMean (groupRets rows gs p.1 p.2) = m := by
      simpa [Prod.ext_iff] using he
    rw [← hm2, hd, hg]
  · intro hcat d g
    rw [hproj, aggKeys, if_pos hcat, List.mem_flatMap]
    constructor
    · rintro ⟨dd, hdd, hmem⟩
      rcases List.mem_map.mp hmem with ⟨k, hk, he⟩
      have hk5 : k < 5 := List.mem_range.mp hk
      obtain ⟨hd, hg⟩ : dd = d ∧ k + 1 = g := by
        simpa [Prod.ext_iff] using he
      subst hd
      rw [List.mem_dedup, (List.perm_insertionSort _ _).mem_iff,
        List.mem_map] at hdd
      exact ⟨hdd, by omega, by omega⟩
    · rintro ⟨⟨r, hr, hrd⟩, hg1, hg5⟩
      refine ⟨d, ?_, ?_⟩
      · rw [List.mem_dedup, (List.perm_insertionSort _ _).mem_iff,
          List.mem_map]
        exact ⟨r, hr, hrd⟩
      · rw [List.mem_map]
        exact ⟨g - 1, List.mem_range.mpr (by omega),
          by rw [Nat.sub_add_cancel hg1]⟩
  · intro hcat d g
    rw [hproj, aggKeys, if_neg (by rw [hcat]; exact Bool.false_ne_true)]
    unfold observedPairs
    rw [(List.perm_insertionSort pairLe _).mem_iff, List.mem_dedup,
      List.mem_filterMap]
    constructor
    · rintro ⟨rg, hm, he⟩
      rcases Option.map_eq_some'.mp he with ⟨a, ha, hpair⟩
      obtain ⟨hd, hg⟩ : rg.1.date = d ∧ a = g := by
        simpa [Prod.ext_iff] using hpair
      exact ⟨rg, hm, hd, by rw [ha, hg]⟩
    · rintro ⟨rg, hm, hd, hg⟩
      exact ⟨rg, hm, by rw [hg]; simp [hd]⟩

/-- Witness for the amended C6, in the categorical regime: one date
with factor values `[1, 2]` is binned equal-width (categorical group
column), so all five category records appear; the record at the
observed key (0, 5) carries the mean of its one defined return. -/
theorem daily_group_returns_records_spec_witness :
    some ((1 : ℚ)/5) = pdMean (groupRets
      [⟨0, 1, some 1, none⟩, ⟨0, 2, some 2, some (1/5)⟩] [none, some 5] 0 5) :=
  (daily_group_returns_records_spec
    [⟨0, 1, some 1, none⟩, ⟨0, 2, some 2, some (1/5)⟩] [none, some 5]
    [(0, 1, none), (0, 2, none), (0, 3, none), (0, 4, none),
      (0, 5, some (1/5))]
    (by with_unfolding_all decide) (by with_unfolding_all decide)).1 0 5
    (some (1/5)) (by with_unfolding_all decide)

/-- `adjust_price_data` (factor_calculator.py, lines 6–24): scale each
of open/high/low/close by `adj_factor / adj_factor.iloc[-1]` (the
adjustment factor normalized so the most recent row's factor is 1);
volume and the other fields are untouched.  `none` models the
IndexError `iloc[-1]` raises on an empty series.  The KeyError raised
when the column is absent has no counterpart here: the typed row always
carries `adj_factor`. -/
def adjust_price_data (rows : List PanelRow) : Option (List PanelRow) :=
  match rows.getLast? with
  | none => none
  | some lastRow =>
    some (rows.map (fun r =>
      let s := r.adj_factor / lastRow.adj_factor
      { r with «open» := r.«open» * s, high := r.high * s,
               low := r.low * s, close := r.close * s }))

/-- C9, counterexample: with an adjustment factor that is constant but
ZERO, adjustment is not a no-op.  The scale is `0 / 0` — NaN in pandas,
rendered as 0 in `ℚ` — so every price field changes (to NaN in pandas,
to 0 here); under either reading the output differs from the input,
refuting the unqualified "constant factor is a no-op" claim. -/
theorem adjust_price_data_constant_zero_not_noop :
    adjust_price_data [⟨7, 0, 100, 100, 100, 100, 50, 0⟩] ≠
      some [⟨7, 0, 100, 100, 100, 100, 50, 0⟩] := by
  with_unfolding_all decide

/-- C9 (amended: the constant factor must be nonzero): on a nonempty
single-stock series whose adjustment factor is a constant `c ≠ 0`, the
scale `c / c = 1` everywhere and price adjustment returns the series
unchanged. -/
theorem adjust_price_data_constant_nonzero_noop (rows : List PanelRow)
    (c : ℚ) (hc : c ≠ 0) (hconst : ∀ r ∈ rows, r.adj_factor = c)
    (hne : rows ≠ []) :
    adjust_price_data rows = some rows := by
  obtain ⟨lastRow, hl⟩ : ∃ y, rows.getLast? = some y := by
    cases h : rows.getLast? with
    | none => exact absurd (List.getLast?_eq_none_iff.mp h) hne
    | some y => exact ⟨y, rfl⟩
  have hlast : lastRow.adj_factor = c := hconst _ (List.mem_of_mem_getLast? hl)
  have hmap : rows.map (fun r : PanelRow =>
      let s := r.adj_factor / lastRow.adj_factor
      { r with «open» := r.«open» * s, high := r.high * s,
               low := r.low * s, close := r.close * s }) = rows := by
    have hrow : ∀ r ∈ rows,
        (fun r : PanelRow =>
          let s := r.adj_factor / lastRow.adj_factor
          { r with «open» := r.«open» * s, high := r.high * s,
                   low := r.low * s, close := r.close * s }) r = id r := by
      intro r hr
      have hs : r.adj_factor / lastRow.adj_factor = 1 := by
        rw [hconst r hr, hlast, div_self hc]
      show (let s := r.adj_factor / lastRow.adj_factor
        ({ r with «open» := r.«open» * s, high := r.high * s,
                  low := r.low * s, close := r.close * s } : PanelRow)) = r
      rw [hs]
      simp only [mul_one]
    rw [List.map_congr_left hrow, List.map_id]
  rw [adjust_price_data, hl]
  exact congrArg some hmap

/-- Witness for the amended C9: a one-row series with constant
adjustment factor 2 is returned unchanged. -/
theorem adjust_price_data_constant_nonzero_noop_witness :
    adjust_price_data [⟨1, 0, 4, 5, 3, 4, 9, 2⟩] =
      some [⟨1, 0, 4, 5, 3, 4, 9, 2⟩] :=
  adjust_price_data_constant_nonzero_noop [⟨1, 0, 4, 5, 3, 4, 9, 2⟩] 2
    (by decide) (by with_unfolding_all decide) (by decide)

/-- `pd.DataFrame` built from the dict of plugin-output sequences (the
`factors` dict of the module-level `calculate_factors`): construction
raises (none) exactly when two sequences have different lengths from
each other; nothing compares them against the input series' length. -/
def buildFrame (cols : List (String × List ℚ)) : Option (List (String × List ℚ)) :=
  if cols.all (fun c => c.2.length == (cols.headD ("", [])).2.length) then
    some cols
  else none

/-- Module-level `calculate_factors` (factor_calculator.py, lines
44–64): apply every discovered plugin's `calculate_factor` entry point
to the whole stock series and assemble the outputs into a wide factor
table, one named column per plugin.  The source performs no validation
of an output's length against the input series. -/
def calculate_factors (plugins : List (String × (List PanelRow → List ℚ)))
    (stock_data : List PanelRow) : Option (List (String × List ℚ)) :=
  buildFrame (plugins.map (fun p => (p.1, p.2 stock_data)))

/-- C7, counterexample: a single plugin returning a 2-element sequence
for a 3-row stock series is NOT detected: `calculate_factors` happily
produces a factor table instead of failing with a contract-violation
error. -/
theorem calculate_factors_length_mismatch_no_error :
    calculate_factors [("f", fun _ => [1, 2])]
        [⟨1, 0, 10, 10, 10, 10, 5, 1⟩, ⟨1, 1, 11, 11, 11, 11, 5, 1⟩,
         ⟨1, 2, 12, 12, 12, 12, 5, 1⟩] =
      some [("f", [1, 2])] ∧
    ([(1 : ℚ), 2]).length ≠
      ([⟨1, 0, 10, 10, 10, 10, 5, 1⟩, ⟨1, 1, 11, 11, 11, 11, 5, 1⟩,
        ⟨1, 2, 12, 12, 12, 12, 5, 1⟩] : List PanelRow).length := by
  with_unfolding_all decide

/-- C7 (amended): output-length mismatch with the input is not treated
as a contract violation.  Whenever all plugin outputs share one common
length `L` — whether or not `L` matches the input series — the factor
table is produced; construction can only fail when two plugins return
sequences of different lengths from each other. -/
theorem calculate_factors_uniform_length_succeeds
    (plugins : List (String × (List PanelRow → List ℚ)))
    (stock_data : List PanelRow) (L : Nat)
    (hL : ∀ p ∈ plugins, (p.2 stock_data).length = L) :
    calculate_factors plugins stock_data =
      some (plugins.map (fun p => (p.1, p.2 stock_data))) := by
  cases plugins with
  | nil => rfl
  | cons p0 ps =>
    have hcond : (((p0 :: ps).map (fun p => (p.1, p.2 stock_data))).all
        (fun c => c.2.length ==
          (((p0 :: ps).map
            (fun p => (p.1, p.2 stock_data))).headD ("", [])).2.length)) = true := by
      rw [List.all_eq_true]
      intro c hc
      rcases List.mem_map.mp hc with ⟨p, hp, rfl⟩
      have h1 : (p.2 stock_data).length = L := hL p hp
      have h0 : (p0.2 stock_data).length = L := hL p0 (by simp)
      simp [h1, h0]
    rw [calculate_factors, buildFrame, if_pos hcond]

/-- Witness for the amended C7: one plugin returning a fixed 3-element
sequence on an empty stock series (lengths 3 vs 0) still yields a
factor table. -/
theorem calculate_factors_uniform_length_succeeds_witness :
    calculate_factors [("f", fun _ => [1, 2, 3])] [] =
      some [("f", [1, 2, 3])] :=
  calculate_factors_uniform_length_succeeds [("f", fun _ => [1, 2, 3])] [] 3
    (by
      intro p hp
      rw [List.mem_singleton] at hp
      subst hp
      rfl)

/-- One row of the merged per-stock factor table
(`_calculate_factors_for_stock` output, with the stock code attached by
the caller): plugin factor values, the returns-column value, the date. -/
structure OutRow where
  code : Nat
  date : Nat
  factors : List (String × ℚ)
  ret : Option ℚ
deriving DecidableEq

/-- `pd.concat`: raises ValueError (none) on an empty list of objects. -/
def pdConcat {α : Type} (ts : List (List α)) : Option (List α) :=
  if ts.isEmpty then none else some ts.flatten

/-- `FactorCalculator._calculate_factors_for_stock`
(factor_calculator.py, lines 106–128): compute the returns column with
`calculate_returns`, run the plugins (module-level `calculate_factors`),
and attach the returns and date columns to the factor table.  Columns
are attached row-positionally (plugins are assumed to return
row-aligned sequences); table rows beyond the input series — possible
under a length mismatch, cf. C7 — read a NaN return and date 0. -/
def calcFactorsForStock (plugins : List (String × (List PanelRow → List ℚ)))
    (H : Nat) (stock : List PanelRow) : Option (List OutRow) :=
  let rets := calculate_returns (stock.map (fun r => r.close)) H
  (calculate_factors plugins stock).map (fun tbl =>
    let L := if tbl.isEmpty then stock.length else (tbl.headD ("", [])).2.length
    (List.range L).map (fun i =>
      { code := 0
        date := (stock.getD i ⟨0, 0, 0, 0, 0, 0, 0, 0⟩).date
        factors := tbl.map (fun col => (col.1, col.2.getD i 0))
        ret := rets.getD i none }))

/-- `FactorCalculator.calculate_factors` (factor_calculator.py, lines
81–104): group the panel by stock code (groupby yields the codes in
sorted order), per stock optionally adjust prices, compute the returns
column and the plugin factors, tag rows with the stock code, then
concatenate the per-stock tables; `pd.concat` raises on an empty panel
(no stock groups at all). -/
def FactorCalculator_calculate_factors (data : List PanelRow)
    (plugins : List (String × (List PanelRow → List ℚ)))
    (H : Nat) (adjustPrice : Bool) : Option (List OutRow) :=
  let codes := ((data.map (fun r => r.code)).insertionSort (· ≤ ·)).dedup
  (codes.mapM (fun c =>
    let stock := data.filter (fun r => r.code == c)
    (if adjustPrice then adjust_price_data stock else some stock).bind
      (fun stock2 =>
        (calcFactorsForStock plugins H stock2).map
          (fun outs => outs.map (fun o => { o with code := c }))))).bind pdConcat

/-- C8, counterexample: on an empty input panel the batch pipeline does
not return an empty, well-typed table — it hits `pd.concat` with no
objects to concatenate, which raises ValueError (modelled by `none`). -/
theorem batch_calculate_factors_empty_panel_errors :
    FactorCalculator_calculate_factors [] [] 1 false = none ∧
    FactorCalculator_calculate_factors [] [] 1 false ≠ some [] := by
  with_unfolding_all decide

/-- C8 (amended): for every plugin list, horizon and adjustment flag,
an empty panel makes `FactorCalculator.calculate_factors` raise (the
`pd.concat` of zero per-stock tables), never an empty table. -/
theorem batch_calculate_factors_empty_panel_none
    (plugins : List (String × (List PanelRow → List ℚ))) (H : Nat)
    (adj : Bool) :
    FactorCalculator_calculate_factors [] plugins H adj = none := rfl

/-- Witness for the amended C8 at a nonempty plugin list, `H = 3`,
price adjustment on. -/
theorem batch_calculate_factors_empty_panel_none_witness :
    FactorCalculator_calculate_factors [] [("g", fun _ => [1])] 3 true = none :=
  batch_calculate_factors_empty_panel_none [("g", fun _ => [1])] 3 true

/-- `Series.pct_change(periods=H)`: the backward relative change
`(close[t] - close[t-H]) / close[t-H]`, NaN for the first `H` rows. -/
def pct_change (close : List ℚ) (H : Nat) : List (Option ℚ) :=
  (List.range close.length).map (fun t =>
    if H ≤ t then
      some ((close.getD t 0 - close.getD (t - H) 0) / close.getD (t - H) 0)
    else none)

/-- The returns column `calculate_daily_group_returns` generates when
`returns_{H}d` is absent but `close` is present (factor_analysis.py,
line 60): `groupby('code')['close'].pct_change(periods=holding_days) *
100`, shown here for one stock's close series (the groupby applies it
per stock). -/
def generatedReturnsCol (close : List ℚ) (H : Nat) : List (Option ℚ) :=
  (pct_change close H).map (fun o => o.map (fun v => v * 100))

/-- The returns-column resolution at the top of
`calculate_daily_group_returns` (factor_analysis.py, lines 54–62): an
existing `returns_{H}d` column is used as is; otherwise it is silently
generated from `close` when that column exists; otherwise ValueError
(none). -/
def resolveReturnsCol (existing : Option (List (Option ℚ)))
    (close : Option (List ℚ)) (H : Nat) : Option (List (Option ℚ)) :=
  match existing with
  | some r => some r
  | none =>
    match close with
    | some c => some (generatedReturnsCol c H)
    | none => none

/-- C10: when `returns_{H}d` is absent and `close` present, the column
is silently generated as the backward percentage change over `H`
periods scaled by 100 — row `t` is
`(close[t] - close[t-H]) / close[t-H] * 100`, the first `H` rows of
each stock missing — which differs from the forward fractional return
of `calculate_returns`: on closes `[100, 110]` with `H = 1` the
generated column is `[NaN, 10]` while `calculate_returns` gives
`[1/10, NaN]`. -/
theorem generated_returns_col_spec (c : List ℚ) (H : Nat) :
    resolveReturnsCol none (some c) H = some (generatedReturnsCol c H) ∧
    (generatedReturnsCol c H).length = c.length ∧
    (∀ t, H ≤ t → t < c.length →
      (generatedReturnsCol c H).getD t none =
        some ((c.getD t 0 - c.getD (t - H) 0) / c.getD (t - H) 0 * 100)) ∧
    (∀ t, t < H → t < c.length →
      (generatedReturnsCol c H).getD t none = none) ∧
    generatedReturnsCol [100, 110] 1 = [none, some 10] ∧
    calculate_returns [100, 110] 1 = [some (1/10), none] := by
  refine ⟨rfl, by simp [generatedReturnsCol, pct_change], ?_, ?_,
    by with_unfolding_all decide, by with_unfolding_all decide⟩
  · intro t h1 h2
    simp [generatedReturnsCol, pct_change, List.getD_eq_getElem?_getD, h1, h2]
  · intro t h1 h2
    have h3 : ¬ H ≤ t := not_le.mpr h1
    simp [generatedReturnsCol, pct_change, List.getD_eq_getElem?_getD, h2, h3]

/-- Witness for C10 on closes `[100, 110]`, `H = 1`, row 1. -/
theorem generated_returns_col_spec_witness :
    (generatedReturnsCol [100, 110] 1).getD 1 none =
      some (((110 : ℚ) - 100) / 100 * 100) :=
  (generated_returns_col_spec [100, 110] 1).2.2.1 1 (by decide) (by decide)
